import Mathlib

/-!
Shallow embedding of `devito/passes/iet/language.py` (the pragma-based loop
parallelization pass family) and proofs about it.

The embedding models:

* `Constructs.__getitem__`              → `constructsGetitem`
* `PragmaParallelizer._find_collapsable` → `findCollapsable` / `findCollapsableAux`
* `PragmaParallelizer._make_partree`     → `makePartree`
* `PragmaParallelizer._make_reductions`  → `makeReductions`
* `PragmaParallelizer._make_guard`       → `makeGuard`
* `DeviceAwarePragmaParallelizer._make_guard`   → `deviceMakeGuard`
* `DeviceAwarePragmaParallelizer._make_partree` → `deviceMakePartree`
* `DeviceAwarePragmaParallelizer._map_delete`   → `mapDeleteCondItems`
* `is_on_device`                         → `deviceResident` / `isOnDeviceIET`
* the `parrays` buffer → pointer-array memoization in `_make_parregion` /
  `_make_parallel`                       → `processBuffer` / `makeParregion`

sympy expressions appearing in loop sizes / chunk computations are modelled by
the small syntactic type `SymExpr`; Python integers are Lean `Int`.
-/

/-- The thread-count symbols provided by the symbol registry:
`nthreads` (default), `nthreads_nested`, `nthreads_nonaffine`. -/
inductive TSymKind where
  | default | nested | nonaffine
  deriving DecidableEq

/-- Symbolic (sympy) expressions, as far as this pass manipulates them:
integer literals, plain symbols, the dedicated thread-count symbols, products,
quotients, `Max`, and the `INT` cast. -/
inductive SymExpr where
  | lit : Int → SymExpr
  | sym : String → SymExpr
  | tsym : TSymKind → SymExpr
  | mul : SymExpr → SymExpr → SymExpr
  | div : SymExpr → SymExpr → SymExpr
  | smax : SymExpr → SymExpr → SymExpr
  | intCast : SymExpr → SymExpr
  deriving DecidableEq

/-- A loop step as inspected by `_make_guard`: a constant, a plain `Symbol`
(`isinstance(i.step, Symbol)` is true exactly here), or a compound symbolic
expression. -/
inductive Step where
  | const : Int → Step
  | symb : String → Step
  | comp : SymExpr → Step
  deriving DecidableEq

/-- True exactly when `isinstance(step, Symbol)` holds in the source. -/
def Step.isSymb : Step → Bool
  | .symb _ => true
  | _ => false

/-- An IET `Iteration` node, with the attributes this pass consults:
the induction variable (`dim`), the free symbols of `symbolic_min`, the
property flags, `symbolic_size`, `step`, whether the nest `[root, ..., self]`
is perfect (the result of `IsPerfectIteration(depth=self).visit(root)`), and
the summed operation count of the `ExpressionBundle`s below it. -/
structure Iter where
  dim : String
  minFreeSymbols : List String
  isVectorized : Bool
  isParallelRelaxed : Bool
  isParallelAtomic : Bool
  isAffine : Bool
  symbolicSize : SymExpr
  step : Step
  perfectInRoot : Bool
  sops : Nat
  deriving DecidableEq

/-- The optimization options consumed by `PragmaParallelizer.__init__`,
plus the platform's physical core count. -/
structure ParOptions where
  ncores : Nat
  collapseNcores : Nat
  collapseWork : Int
  chunkNonaffine : Int
  dynamicWork : Nat
  deriving DecidableEq

/-- `int(expr)` on a sympy expression: succeeds on integer literals and
raises `TypeError` (here: `none`) otherwise. -/
def staticInt : SymExpr → Option Int
  | .lit n => some n
  | _ => none

/-- `prod([int(j.dim.symbolic_size) for j in nested])`: `none` as soon as any
conversion fails (the comprehension raises `TypeError`). -/
def staticProd : List Iter → Option Int
  | [] => some 1
  | i :: rest =>
    match staticInt i.symbolicSize, staticProd rest with
    | some a, some b => some (a * b)
    | _, _ => none

/-- `any(j.dim in i.symbolic_min.free_symbols for j in candidates[:n])`. -/
def boundDepends (prior : List Iter) (i : Iter) : Bool :=
  prior.any (fun j => i.minFreeSymbols.contains j.dim)

/-- The work-based break test of `_find_collapsable`: with `nested` the
still-uncollapsed inner candidates, break exactly when `nested` is nonempty,
`prod([int(j.dim.symbolic_size) for j in nested])` computes, and the result is
below the `par-collapse-work` threshold. -/
def workBreak (cw : Int) (nested : List Iter) : Bool :=
  match nested, staticProd nested with
  | [], _ => false
  | _ :: _, some w => decide (w < cw)
  | _ :: _, none => false

/-- The loop body of `_find_collapsable`: walk the candidates after the root,
carrying `prior = candidates[:n]`; stop at the first candidate that is not
perfectly nested in the root, or whose `symbolic_min` mentions an earlier
candidate's induction variable, or that is vectorized, or at which the
work-based break fires. -/
def findCollapsableAux (cw : Int) : List Iter → List Iter → List Iter
  | _, [] => []
  | prior, i :: rest =>
    if !i.perfectInRoot then []
    else if boundDepends prior i then []
    else if i.isVectorized then []
    else if workBreak cw rest then []
    else i :: findCollapsableAux cw (prior ++ [i]) rest

/-- `PragmaParallelizer._find_collapsable(root, candidates)`: the collapsable
Iterations after the root; empty unless `ncores >= collapse_ncores`. -/
def findCollapsable (opts : ParOptions) (cands : List Iter) : List Iter :=
  if opts.collapseNcores ≤ opts.ncores then
    match cands with
    | [] => []
    | root :: rest => findCollapsableAux opts.collapseWork [root] rest
  else []

/-- The scheduling kind chosen in the affine branch of `_make_partree`. -/
inductive Schedule where
  | static | dynamic
  deriving DecidableEq

/-- sympy `prod` over a nonempty list of expressions (left-to-right). -/
def listProd : List SymExpr → SymExpr
  | [] => .lit 1
  | x :: xs => xs.foldl SymExpr.mul x

/-- The `ParallelTree` data produced by `_make_partree`: the thread-count
symbol, the schedule (absent in the non-affine branch), the collapse degree,
whether the `parallel` clause was requested (the nested-parallelism variant),
and the `chunk_size` value expression of the prologue when one is emitted. -/
structure Partree where
  nthreads : TSymKind
  schedule : Option Schedule
  ncollapse : Nat
  isParallelClause : Bool
  chunkValue : Option SymExpr
  deriving DecidableEq

/-- `PragmaParallelizer._make_partree(candidates, nthreads)`. `none` models a
failed `assert` (empty candidates, or a non-affine nest together with an
externally supplied thread count). On success returns
`(root, partree, collapsed)` with `collapsed = [partree] + collapsable`
(the `ParallelTree` forwards attribute lookups to the root Iteration, so the
collapsed list is modelled as `root :: collapsable`). -/
def makePartree (opts : ParOptions) (cands : List Iter) (nthreads : Option TSymKind) :
    Option (Iter × Partree × List Iter) :=
  match cands with
  | [] => none
  | root :: _ =>
    let collapsable := findCollapsable opts cands
    let ncollapse := 1 + collapsable.length
    if cands.all (fun i => i.isAffine) then
      let sops := root.sops
      let schedule := if opts.dynamicWork ≤ sops then Schedule.dynamic else Schedule.static
      match nthreads with
      | none =>
        some (root, ⟨TSymKind.default, some schedule, ncollapse, false, none⟩,
              root :: collapsable)
      | some t =>
        some (root, ⟨t, some schedule, ncollapse, true, none⟩, root :: collapsable)
    else
      match nthreads with
      | some _ => none
      | none =>
        let niters := listProd (root.symbolicSize
          :: collapsable.map (fun j => j.symbolicSize))
        let value := SymExpr.intCast (SymExpr.smax
          (SymExpr.div niters
            (SymExpr.mul (SymExpr.tsym TSymKind.nonaffine)
              (SymExpr.lit opts.chunkNonaffine)))
          (SymExpr.lit 1))
        some (root, ⟨TSymKind.nonaffine, none, ncollapse, false, some value⟩,
              root :: collapsable)

/-- An increment `Expression` as inspected by `_make_reductions`: its flags,
the name of its output location, and whether that output is an `Indexed`. -/
structure IncExpr where
  eid : Nat
  isIncrement : Bool
  isForeignExpression : Bool
  outputName : String
  outputIsIndexed : Bool
  deriving DecidableEq

/-- The outcome of `_make_reductions`: the partree unchanged, a declarative
reduction set attached to the root, or atomic pragmas attached to the listed
expressions. -/
inductive RedOutcome where
  | unchanged
  | structural (reduction : List String)
  | atomicized (marked : List Nat)
  deriving DecidableEq

/-- True exactly on the atomic-annotation outcome. -/
def RedOutcome.isAtomicized : RedOutcome → Bool
  | .atomicized _ => true
  | _ => false

/-- `PragmaParallelizer._make_reductions(partree, collapsed)`: no-op unless
some collapsed loop is `ParallelAtomic`; otherwise gather the non-foreign
increment expressions, and either attach their outputs as a reduction on the
root (when all collapsed loops are affine, or no output is indexed) or mark
every gathered expression with the atomic pragma. -/
def makeReductions (collapsed : List Iter) (exprs : List IncExpr) : RedOutcome :=
  if !collapsed.any (fun i => i.isParallelAtomic) then .unchanged
  else
    let es := exprs.filter (fun e => e.isIncrement && !e.isForeignExpression)
    if collapsed.all (fun i => i.isAffine) || es.all (fun e => !e.outputIsIndexed) then
      .structural (es.map (fun e => e.outputName))
    else
      .atomicized (es.map (fun e => e.eid))

/-- A sympy boolean as built by `_make_guard`: `Or(*conds)` where each
condition is `CondEq(step, 0)` for a `Symbol` step. `Or()` of no arguments is
sympy `false`; an `Or` of `CondEq(Symbol, 0)` arguments is never `false`. -/
inductive GuardExpr where
  | falseE
  | orE : List Step → GuardExpr
  deriving DecidableEq

/-- `Or(*cond)` on the list of `CondEq(step, 0)` conditions. -/
def mkOr : List Step → GuardExpr
  | [] => .falseE
  | xs => .orE xs

/-- The guard condition of `_make_guard`: the OR over the symbol-valued steps
of the collapsed loops. -/
def guardCond (collapsed : List Iter) : GuardExpr :=
  mkOr ((collapsed.filter (fun i => i.step.isSymb)).map (fun i => i.step))

/-- `PragmaParallelizer._make_guard(partree, collapsed)`: returns the guard
condition wrapped around the region when `cond != False`, and `none` (region
left unguarded) otherwise. -/
def makeGuard (collapsed : List Iter) : Option GuardExpr :=
  let cond := guardCond collapsed
  if cond = GuardExpr.falseE then none else some cond

/-- `DeviceAwarePragmaParallelizer._make_guard`: a no-op (no guard) when the
partree root is a device Iteration, otherwise defers to the host version. -/
def deviceMakeGuard (rootIsDeviceIteration : Bool) (collapsed : List Iter) :
    Option GuardExpr :=
  if rootIsDeviceIteration then none else makeGuard collapsed

/-- A `Function` as inspected by `is_on_device`: its name (identity),
whether it is a `TimeFunction`, and its `save` attribute. -/
structure Func where
  name : String
  isTimeFunction : Bool
  save : Option Nat
  deriving DecidableEq

/-- Python `in` on a list of Functions. -/
def memFunc (fs : List Func) (f : Func) : Bool :=
  fs.any (fun g => decide (g = f))

/-- The per-Function body of `is_on_device`:
`not (f.is_TimeFunction and f.save is not None and f not in gpu_fit)`. -/
def deviceResident (gpuFit : List Func) (f : Func) : Bool :=
  !(f.isTimeFunction && f.save.isSome && !memFunc gpuFit f)

/-- An `Expression` node of an IET, as consulted for its `write`. -/
structure ExprNode where
  write : Func
  deriving DecidableEq

/-- The data `is_on_device` extracts from an IET argument: the Functions found
by `FindSymbols` and the Expression nodes found by `FindNodes(Expression)`. -/
structure IETData where
  symbols : List Func
  expressions : List ExprNode
  deriving DecidableEq

/-- `is_on_device(iet, gpu_fit, only_writes)` on an IET: restrict the found
Functions to the written ones when `only_writes`, then require every remaining
Function to be device resident (vacuously true on the empty set). -/
def isOnDeviceIET (gpuFit : List Func) (iet : IETData) (onlyWrites : Bool) : Bool :=
  let writes := iet.expressions.map (fun e => e.write)
  let fns := if onlyWrites then iet.symbols.filter (fun f => memFunc writes f)
             else iet.symbols
  fns.all (fun f => deviceResident gpuFit f)

/-- The outcome of `DeviceAwarePragmaParallelizer._make_partree`: offload to
the device, fall back to host parallelism, or decline (`(root, None, None)`). -/
inductive DeviceResult where
  | offloaded (root : Iter) (ncollapse : Nat) (collapsed : List Iter)
  | hostPar (root : Iter) (p : Partree) (collapsed : List Iter)
  | declined (root : Iter)
  deriving DecidableEq

/-- `DeviceAwarePragmaParallelizer._make_partree(candidates, nthreads)`:
offload when `is_on_device(root, gpu_fit, only_writes=True)`, else host
fallback (unless administratively disabled), else decline. `none` models a
failed `assert`. -/
def deviceMakePartree (opts : ParOptions) (gpuFit : List Func) (parDisabled : Bool)
    (cands : List Iter) (iet : IETData) (nthreads : Option TSymKind) :
    Option DeviceResult :=
  match cands with
  | [] => none
  | root :: _ =>
    if isOnDeviceIET gpuFit iet true then
      let collapsable := findCollapsable opts cands
      some (DeviceResult.offloaded root (1 + collapsable.length) (root :: collapsable))
    else if !parDisabled then
      (makePartree opts cands nthreads).map
        (fun r => DeviceResult.hostPar r.1 r.2.1 r.2.2)
    else
      some (DeviceResult.declined root)

/-- Python dict lookup on the `parrays` buffer → pointer-array map (buffers
and pointer arrays identified by name / id). -/
def plookup (buf : String) : List (String × Nat) → Option Nat
  | [] => none
  | (k, v) :: rest => if buf = k then some v else plookup buf rest

/-- The per-buffer step of `_make_parregion`: `if i in parrays: pi =
parrays[i] else: pi = parrays.setdefault(i, PointerArray(...))`. The state is
the map together with the symbol-registry name counter; the third component is
the pointer array chosen for the buffer. -/
def processBuffer (parrays : List (String × Nat)) (counter : Nat) (buf : String) :
    List (String × Nat) × Nat × Nat :=
  match plookup buf parrays with
  | some pi => (parrays, counter, pi)
  | none => (parrays ++ [(buf, counter)], counter + 1, counter)

/-- One step of `_make_parregion`'s loop over the heap-private arrays:
thread the `(parrays, counter)` state and accumulate the emitted
`Dereference(buffer, pointer-array)` pair. -/
def regionStep (acc : (List (String × Nat) × Nat) × List (String × Nat))
    (buf : String) : (List (String × Nat) × Nat) × List (String × Nat) :=
  let r := processBuffer acc.1.1 acc.1.2 buf
  ((r.1, r.2.1), acc.2 ++ [(buf, r.2.2)])

/-- `_make_parregion`'s loop over the heap-private arrays of one partree. -/
def makeParregion (st : List (String × Nat) × Nat) (heapPrivate : List String) :
    (List (String × Nat) × Nat) × List (String × Nat) :=
  heapPrivate.foldl regionStep (st, [])

/-- The per-nest step of `_make_parallel`: the `parrays` map and name counter
coming out of one nest's `_make_parregion` feed the next nest. -/
def passStep (st : List (String × Nat) × Nat) (nest : List String) :
    List (String × Nat) × Nat :=
  (makeParregion st nest).1

/-- `_make_parallel`'s traversal: one `parrays` map for the whole pass
invocation, threaded through every nest; returns the final map. -/
def runParallelParrays (nests : List (List String)) : List (String × Nat) :=
  (nests.foldl passStep ([], 0)).1

/-- The buffer names bound in a `parrays` map. -/
def mapKeys (m : List (String × Nat)) : List String :=
  m.map (fun p => p.1)

/-- A Function as consulted by `_map_delete`: its per-dimension mapped data
sizes, as returned by `_map_data`. -/
structure DFunc where
  name : String
  dataSizes : List SymExpr
  deriving DecidableEq

/-- One conjunct of the `_map_delete` guard: the `devicerm` removal flag, or a
`(size != 0)` test for one mapped dimension. -/
inductive CondItem where
  | flag : String → CondItem
  | neqZero : SymExpr → CondItem
  deriving DecidableEq

/-- The conjunct list of the ` if(...)` clause built by `_map_delete`: the
removal flag when supplied, then one nonzero test per mapped dimension. -/
def mapDeleteCondItems (f : DFunc) (devicerm : Option String) : List CondItem :=
  (match devicerm with
   | some d => [CondItem.flag d]
   | none => []) ++ f.dataSizes.map CondItem.neqZero

/-- Evaluation of symbolic expressions under a symbol / thread-symbol
valuation (the C semantics of the emitted arithmetic). -/
def evalSym (env : String → Int) (tenv : TSymKind → Int) : SymExpr → Int
  | .lit n => n
  | .sym s => env s
  | .tsym t => tenv t
  | .mul a b => evalSym env tenv a * evalSym env tenv b
  | .div a b => evalSym env tenv a / evalSym env tenv b
  | .smax a b => max (evalSym env tenv a) (evalSym env tenv b)
  | .intCast a => evalSym env tenv a

/-- Evaluation of one guard conjunct. -/
def evalCondItem (env : String → Int) (tenv : TSymKind → Int)
    (flagEnv : String → Bool) : CondItem → Bool
  | .flag d => flagEnv d
  | .neqZero e => decide (evalSym env tenv e ≠ 0)

/-- The C semantics of the `&&`-joined `_map_delete` guard condition. -/
def evalMapDeleteCond (env : String → Int) (tenv : TSymKind → Int)
    (flagEnv : String → Bool) (f : DFunc) (devicerm : Option String) : Bool :=
  (mapDeleteCondItems f devicerm).all (evalCondItem env tenv flagEnv)

/-- Association-list lookup modelling dict content for the Construct Table. -/
def clookup {β : Type} (k : String) : List (String × β) → Option β
  | [] => none
  | (k', v) :: rest => if k = k' then some v else clookup k rest

/-- `Constructs.__getitem__`: raise `NotImplementedError` (here: `.error` with
the message naming the missing key) when the key is absent, otherwise return
the stored builder. -/
def constructsGetitem {β : Type} (table : List (String × β)) (k : String) :
    Except String β :=
  match clookup k table with
  | none => Except.error ("Must implement `lang[" ++ k ++ "]`")
  | some v => Except.ok v

/-- Modelled from the amended C1 claim's words: the number of consecutive
inner candidates that are each perfectly nested in the root, free of bound
dependencies on already-collapsed induction variables, not vectorized, and not
cut off by the `par-collapse-work` break; counting stops at the first
violation. -/
def specCollapseCount (cw : Int) : List Iter → List Iter → Nat
  | _, [] => 0
  | prior, i :: rest =>
    if i.perfectInRoot && !boundDepends prior i && !i.isVectorized && !workBreak cw rest
    then 1 + specCollapseCount cw (prior ++ [i]) rest
    else 0

/-! ## Concrete instances used by witnesses and counterexamples -/

def funcC5 : Func := ⟨"usave", true, some 10⟩

def dfuncC8 : DFunc := ⟨"u", [SymExpr.lit 0, SymExpr.sym "n"]⟩

/-- Collapsed loops for the C2 counterexample: a single ParallelAtomic,
non-affine loop. -/
def collapsedC2 : List Iter :=
  [⟨"x", [], false, true, true, false, SymExpr.sym "nx", Step.const 1, true, 0⟩]

/-- Expressions for the C2 counterexample: one scalar-target increment and one
indexed-target increment in the same parallel unit. -/
def exprsC2 : List IncExpr :=
  [⟨1, true, false, "s", false⟩, ⟨2, true, false, "a", true⟩]

/-- Expressions for the C2 amended witness: scalar-target increments only. -/
def exprsScalarC2 : List IncExpr := [⟨1, true, false, "s", false⟩]

/-- A non-affine parallel root loop, used to instantiate C3. -/
def naRoot : Iter :=
  ⟨"x", [], false, true, false, false, SymExpr.sym "nx", Step.symb "sx", true, 0⟩

/-- Options used by concrete instantiations of C3. -/
def optsC3 : ParOptions := ⟨8, 4, 100, 4, 10⟩

def optsC1 : ParOptions := ⟨8, 4, 100, 4, 10⟩

def candsC1 : List Iter :=
  [⟨"x", [], false, true, false, true, SymExpr.lit 32, Step.const 1, true, 0⟩,
   ⟨"y", [], false, true, false, true, SymExpr.lit 4, Step.const 1, true, 0⟩,
   ⟨"z", [], false, true, false, true, SymExpr.lit 4, Step.const 1, true, 0⟩]

def rootC1 : Iter :=
  ⟨"x", [], false, true, false, true, SymExpr.lit 32, Step.const 1, true, 0⟩

def iterC7a : Iter :=
  ⟨"y", [], false, true, false, true, SymExpr.lit 4, Step.const 1, true, 0⟩

def iterC7b : Iter :=
  ⟨"z", [], false, true, false, true, SymExpr.lit 4, Step.const 1, true, 0⟩

/-! ## Supporting lemmas -/

theorem findCollapsableAux_cons (cw : Int) (prior : List Iter) (i : Iter) (rest : List Iter) :
    findCollapsableAux cw prior (i :: rest)
      = if i.perfectInRoot && !boundDepends prior i && !i.isVectorized
           && !workBreak cw rest
        then i :: findCollapsableAux cw (prior ++ [i]) rest
        else [] := by
  rw [findCollapsableAux.eq_2]
  cases h1 : i.perfectInRoot <;> cases h2 : boundDepends prior i <;>
    cases h3 : i.isVectorized <;> cases h4 : workBreak cw rest <;> simp

theorem makePartree_shape (opts : ParOptions) (root : Iter) (rest : List Iter)
    (nt : Option TSymKind) (r : Iter) (p : Partree) (c : List Iter)
    (h : makePartree opts (root :: rest) nt = some (r, p, c)) :
    r = root ∧ p.ncollapse = 1 + (findCollapsable opts (root :: rest)).length
      ∧ c = root :: findCollapsable opts (root :: rest) := by
  cases nt with
  | none =>
    by_cases ha : (root :: rest).all (fun i => i.isAffine) = true
    · simp only [makePartree, ha, if_true, Option.some.injEq, Prod.mk.injEq] at h
      obtain ⟨h1, h2, h3⟩ := h
      subst h1; subst h2; subst h3
      exact ⟨rfl, rfl, rfl⟩
    · rw [Bool.not_eq_true] at ha
      simp only [makePartree, ha, Bool.false_eq_true, if_false, Option.some.injEq,
        Prod.mk.injEq] at h
      obtain ⟨h1, h2, h3⟩ := h
      subst h1; subst h2; subst h3
      exact ⟨rfl, rfl, rfl⟩
  | some t =>
    by_cases ha : (root :: rest).all (fun i => i.isAffine) = true
    · simp only [makePartree, ha, if_true, Option.some.injEq, Prod.mk.injEq] at h
      obtain ⟨h1, h2, h3⟩ := h
      subst h1; subst h2; subst h3
      exact ⟨rfl, rfl, rfl⟩
    · rw [Bool.not_eq_true] at ha
      simp only [makePartree, ha, Bool.false_eq_true, if_false] at h
      exact Option.noConfusion h

theorem findCollapsableAux_length (cw : Int) (rest : List Iter) :
    ∀ prior, (findCollapsableAux cw prior rest).length
      = specCollapseCount cw prior rest := by
  induction rest with
  | nil => intro prior; rfl
  | cons i rest ih =>
    intro prior
    rw [findCollapsableAux_cons, specCollapseCount.eq_2]
    cases hc : (i.perfectInRoot && !boundDepends prior i && !i.isVectorized
        && !workBreak cw rest) with
    | false => simp
    | true => simp [ih, Nat.add_comm]

theorem findCollapsableAux_take (cw : Int) (rest : List Iter) :
    ∀ prior, findCollapsableAux cw prior rest
      = rest.take (findCollapsableAux cw prior rest).length := by
  induction rest with
  | nil => intro prior; rfl
  | cons i rest ih =>
    intro prior
    rw [findCollapsableAux_cons]
    cases hc : (i.perfectInRoot && !boundDepends prior i && !i.isVectorized
        && !workBreak cw rest) with
    | false => simp
    | true =>
      simp only [if_true, List.length_cons, List.take_succ_cons, List.cons.injEq,
        true_and]
      exact ih _

theorem findCollapsableAux_nodep_split (cw : Int) (rest : List Iter) :
    ∀ prior pre x suf, findCollapsableAux cw prior rest = pre ++ x :: suf →
      boundDepends (prior ++ pre) x = false := by
  induction rest with
  | nil =>
    intro prior pre x suf h
    simp [findCollapsableAux] at h
  | cons i rest ih =>
    intro prior pre x suf h
    rw [findCollapsableAux_cons] at h
    by_cases hc : (i.perfectInRoot && !boundDepends prior i && !i.isVectorized
        && !workBreak cw rest) = true
    · rw [if_pos hc] at h
      simp only [Bool.and_eq_true, Bool.not_eq_true'] at hc
      obtain ⟨⟨⟨h1, h2⟩, h3⟩, h4⟩ := hc
      cases pre with
      | nil =>
        simp only [List.nil_append, List.cons.injEq] at h
        obtain ⟨rfl, -⟩ := h
        simpa using h2
      | cons p pre' =>
        simp only [List.cons_append, List.cons.injEq] at h
        obtain ⟨rfl, h'⟩ := h
        have := ih (prior ++ [i]) pre' x suf h'
        simpa [List.append_assoc] using this
    · rw [if_neg hc] at h
      simp at h

theorem plookup_append_some (b : String) (m m' : List (String × Nat)) (pi : Nat)
    (h : plookup b m = some pi) : plookup b (m ++ m') = some pi := by
  induction m with
  | nil => simp [plookup] at h
  | cons q rest ih =>
    obtain ⟨k, v⟩ := q
    by_cases hb : b = k
    · simp [plookup, hb] at h ⊢
      exact h
    · simp [plookup, hb] at h ⊢
      exact ih h

theorem plookup_append_self (b : String) (m : List (String × Nat)) (c : Nat)
    (h : plookup b m = none) : plookup b (m ++ [(b, c)]) = some c := by
  induction m with
  | nil => simp [plookup]
  | cons q rest ih =>
    obtain ⟨k, v⟩ := q
    by_cases hb : b = k
    · simp [plookup, hb] at h
    · simp [plookup, hb] at h ⊢
      exact ih h

theorem plookup_none_not_mem (b : String) (m : List (String × Nat))
    (h : plookup b m = none) : b ∉ mapKeys m := by
  induction m with
  | nil => simp [mapKeys]
  | cons q rest ih =>
    obtain ⟨k, v⟩ := q
    by_cases hb : b = k
    · simp [plookup, hb] at h
    · simp [plookup, hb] at h
      simp [mapKeys, hb]
      simpa [mapKeys] using ih h

theorem processBuffer_stable (m : List (String × Nat)) (c : Nat) (buf b : String)
    (pi : Nat) (h : plookup b m = some pi) :
    plookup b (processBuffer m c buf).1 = some pi := by
  unfold processBuffer
  cases hl : plookup buf m with
  | some x => simpa using h
  | none => simpa using plookup_append_some b m [(buf, c)] pi h

theorem processBuffer_nodup (m : List (String × Nat)) (c : Nat) (buf : String)
    (h : (mapKeys m).Nodup) :
    (mapKeys (processBuffer m c buf).1).Nodup := by
  unfold processBuffer
  cases hl : plookup buf m with
  | some x => simpa using h
  | none =>
    have hnm : buf ∉ mapKeys m := plookup_none_not_mem buf m hl
    show (mapKeys (m ++ [(buf, c)])).Nodup
    have hkeys : mapKeys (m ++ [(buf, c)]) = mapKeys m ++ [buf] := by
      simp [mapKeys]
    rw [hkeys]
    exact List.Nodup.append h (List.nodup_singleton buf)
      (by simpa [List.disjoint_singleton] using hnm)

theorem foldl_regionStep_stable (nest : List String) :
    ∀ (acc : (List (String × Nat) × Nat) × List (String × Nat)) (b : String) (pi : Nat),
      plookup b acc.1.1 = some pi →
      plookup b ((nest.foldl regionStep acc).1.1) = some pi := by
  induction nest with
  | nil => intro acc b pi h; simpa using h
  | cons buf nest ih =>
    intro acc b pi h
    simp only [List.foldl_cons]
    exact ih _ b pi (processBuffer_stable acc.1.1 acc.1.2 buf b pi h)

theorem foldl_regionStep_nodup (nest : List String) :
    ∀ (acc : (List (String × Nat) × Nat) × List (String × Nat)),
      (mapKeys acc.1.1).Nodup →
      (mapKeys ((nest.foldl regionStep acc).1.1)).Nodup := by
  induction nest with
  | nil => intro acc h; simpa using h
  | cons buf nest ih =>
    intro acc h
    simp only [List.foldl_cons]
    exact ih _ (processBuffer_nodup acc.1.1 acc.1.2 buf h)

theorem foldl_passStep_nodup (nests : List (List String)) :
    ∀ st : List (String × Nat) × Nat, (mapKeys st.1).Nodup →
      (mapKeys ((nests.foldl passStep st).1)).Nodup := by
  induction nests with
  | nil => intro st h; simpa using h
  | cons nest nests ih =>
    intro st h
    simp only [List.foldl_cons]
    exact ih _ (foldl_regionStep_nodup nest (st, []) h)

/-! ## Claim theorems -/


/-- C9: for every key not defined in the dialect Construct Table, lookup fails
immediately and explicitly with an error naming the missing construct, never a
silent fallback; for every defined key, lookup returns the stored builder. -/
theorem claim_C9 {β : Type} (table : List (String × β)) (k : String) :
    (clookup k table = none →
      constructsGetitem table k
        = Except.error ("Must implement `lang[" ++ k ++ "]`"))
    ∧ (∀ v, clookup k table = some v → constructsGetitem table k = Except.ok v) := by
  constructor
  · intro h
    simp [constructsGetitem, h]
  · intro v h
    simp [constructsGetitem, h]

/-- Witness for C9 on a one-entry construct table. -/
theorem claim_C9_witness :
    constructsGetitem ([("thread-num", 0)] : List (String × Nat)) "atomic"
      = Except.error ("Must implement `lang[" ++ "atomic" ++ "]`")
    ∧ constructsGetitem ([("thread-num", 0)] : List (String × Nat)) "thread-num"
      = Except.ok 0 :=
  ⟨(claim_C9 [("thread-num", 0)] "atomic").1 (by decide),
   (claim_C9 [("thread-num", 0)] "thread-num").2 0 (by decide)⟩

/-- C4: the zero-step guard is prefixed to an assembled parallel region if and
only if at least one collapsed loop's step is a non-constant symbol (so the OR
of the step-equals-zero tests is not trivially false); device-placed units
never receive the guard. -/
theorem claim_C4 (collapsed : List Iter) :
    ((makeGuard collapsed).isSome = collapsed.any (fun i => i.step.isSymb))
    ∧ deviceMakeGuard true collapsed = none := by
  constructor
  · cases h : collapsed.filter (fun i => i.step.isSymb) with
    | nil =>
      have hany : collapsed.any (fun i => i.step.isSymb) = false := by
        rw [List.any_eq_false]
        intro x hx
        have := List.filter_eq_nil_iff.mp h x hx
        simpa using this
      simp [makeGuard, guardCond, h, mkOr, hany]
    | cons hd tl =>
      have hmem : hd ∈ collapsed.filter (fun i => i.step.isSymb) := by
        rw [h]; exact List.mem_cons_self hd tl
      have hany : collapsed.any (fun i => i.step.isSymb) = true := by
        rw [List.any_eq_true]
        obtain ⟨hm, hp⟩ := List.mem_filter.mp hmem
        exact ⟨hd, hm, hp⟩
      simp [makeGuard, guardCond, h, mkOr, hany]
  · rfl

/-- C5: a Function declared in the gpu-fit configuration set is never
classified as non-device-resident by the placement test, even a time-indexed
buffer with retained history; residency is false exactly for retained
time-history buffers that are not in gpu-fit. -/
theorem claim_C5 (gpuFit : List Func) (f : Func) :
    (memFunc gpuFit f = true → deviceResident gpuFit f = true)
    ∧ (deviceResident gpuFit f = false ↔
        (f.isTimeFunction = true ∧ f.save.isSome = true ∧ memFunc gpuFit f = false)) := by
  unfold deviceResident
  constructor
  · intro h
    simp [h]
  · cases ht : f.isTimeFunction <;>
      cases hs : f.save.isSome <;>
        cases hm : memFunc gpuFit f <;> simp

/-- Witness for C5: a retained time-history buffer listed in gpu-fit is
device resident. -/
theorem claim_C5_witness :
    deviceResident [funcC5] funcC5 = true :=
  (claim_C5 [funcC5] funcC5).1 (by decide)

/-- C10: for a nest with no Expression writing to any Function, the device
placement test with only_writes restricted to the (empty) written set is
vacuously true, so the device-aware partree builder offloads the nest to the
device rather than falling back to the host or declining. -/
theorem claim_C10 (opts : ParOptions) (gpuFit : List Func) (parDisabled : Bool)
    (root : Iter) (rest : List Iter) (symbols : List Func) (nt : Option TSymKind) :
    isOnDeviceIET gpuFit ⟨symbols, []⟩ true = true
    ∧ deviceMakePartree opts gpuFit parDisabled (root :: rest) ⟨symbols, []⟩ nt
        = some (DeviceResult.offloaded root
            (1 + (findCollapsable opts (root :: rest)).length)
            (root :: findCollapsable opts (root :: rest))) := by
  have hdev : isOnDeviceIET gpuFit ⟨symbols, []⟩ true = true := by
    simp [isOnDeviceIET, memFunc]
  exact ⟨hdev, by simp [deviceMakePartree, hdev]⟩

/-- C8: the map-exit-delete guard condition conjoins, for every mapped
dimension, a nonzero-extent test (together with the removal flag when one is
supplied), and evaluates to false whenever any mapped dimension's extent is
zero, so no copy-back occurs for a zero-sized local buffer. -/
theorem claim_C8 (f : DFunc) (devicerm : Option String)
    (env : String → Int) (tenv : TSymKind → Int) (flagEnv : String → Bool) :
    (∀ e ∈ f.dataSizes, CondItem.neqZero e ∈ mapDeleteCondItems f devicerm)
    ∧ (∀ d, devicerm = some d → CondItem.flag d ∈ mapDeleteCondItems f devicerm)
    ∧ (∀ e ∈ f.dataSizes, evalSym env tenv e = 0 →
        evalMapDeleteCond env tenv flagEnv f devicerm = false) := by
  refine ⟨?_, ?_, ?_⟩
  · intro e he
    unfold mapDeleteCondItems
    exact List.mem_append_right _ (List.mem_map_of_mem _ he)
  · intro d hd
    subst hd
    unfold mapDeleteCondItems
    simp
  · intro e he h0
    unfold evalMapDeleteCond
    rw [List.all_eq_false]
    refine ⟨CondItem.neqZero e, ?_, ?_⟩
    · unfold mapDeleteCondItems
      exact List.mem_append_right _ (List.mem_map_of_mem _ he)
    · simp [evalCondItem, h0]

/-- Witness for C8: a buffer with a statically zero extent makes the
map-exit-delete guard false. -/
theorem claim_C8_witness :
    evalMapDeleteCond (fun _ => 0) (fun _ => 1) (fun _ => true)
      dfuncC8 (some "devicerm") = false :=
  (claim_C8 dfuncC8 (some "devicerm") (fun _ => 0) (fun _ => 1) (fun _ => true)).2.2
    (SymExpr.lit 0) (by decide) (by decide)

/-- C2 counterexample: with non-affine collapsed loops and a mix of scalar and
indexed increment targets, the reduction rewriter atomicizes every increment,
including the one with a scalar (non-indexed) target — contradicting the claim
that a scalar-target increment is never given an atomic annotation. -/
theorem claim_C2_counterexample :
    makeReductions collapsedC2 exprsC2 = RedOutcome.atomicized [1, 2]
    ∧ exprsC2.map (fun e => e.outputIsIndexed) = [false, true]
    ∧ collapsedC2.any (fun i => i.isParallelAtomic) = true := by decide

/-- C2 (amended): when no increment target in the parallel unit is indexed,
the rewriter never emits atomic annotations, and (when some collapsed loop is
a ParallelAtomic candidate) attaches the accumulated targets as a structural
reduction on the region's root loop, regardless of affinity. -/
theorem claim_C2_amended (collapsed : List Iter) (exprs : List IncExpr)
    (h : ∀ e ∈ exprs, e.isIncrement = true → e.isForeignExpression = false →
          e.outputIsIndexed = false) :
    (makeReductions collapsed exprs).isAtomicized = false
    ∧ (collapsed.any (fun i => i.isParallelAtomic) = true →
        makeReductions collapsed exprs
          = RedOutcome.structural
              ((exprs.filter (fun e => e.isIncrement && !e.isForeignExpression)).map
                (fun e => e.outputName))) := by
  have hes : (exprs.filter (fun e => e.isIncrement && !e.isForeignExpression)).all
      (fun e => !e.outputIsIndexed) = true := by
    rw [List.all_eq_true]
    intro e he
    obtain ⟨hmem, hp⟩ := List.mem_filter.mp he
    simp only [Bool.and_eq_true, Bool.not_eq_true'] at hp
    obtain ⟨hinc, hnf⟩ := hp
    have := h e hmem hinc hnf
    simp [this]
  cases hat : collapsed.any (fun i => i.isParallelAtomic) with
  | false =>
    constructor
    · simp [makeReductions, hat, RedOutcome.isAtomicized]
    · intro hcontra
      exact absurd hcontra (by simp [hat])
  | true =>
    have hstruct : makeReductions collapsed exprs
        = RedOutcome.structural
            ((exprs.filter (fun e => e.isIncrement && !e.isForeignExpression)).map
              (fun e => e.outputName)) := by
      simp [makeReductions, hat, hes]
    exact ⟨by simp [hstruct, RedOutcome.isAtomicized], fun _ => hstruct⟩

/-- Witness for the amended C2: all-scalar increment targets are never
atomicized. -/
theorem claim_C2_amended_witness :
    (makeReductions collapsedC2 exprsScalarC2).isAtomicized = false :=
  (claim_C2_amended collapsedC2 exprsScalarC2 (by decide)).1

/-- C3: for a nest with a non-affine candidate loop, the partree builder
selects the dedicated non-affine thread-count symbol and emits a prologue
computing chunk_size = INT(Max(N / (nthreads_nonaffine * par-chunk-nonaffine),
1)) where N is the product of the root's and all collapsed loops' trip counts;
and a non-affine nest combined with an externally supplied thread count fails
the builder's assertion rather than being masked. -/
theorem claim_C3 (opts : ParOptions) (root : Iter) (rest : List Iter)
    (hna : (root :: rest).all (fun i => i.isAffine) = false) :
    makePartree opts (root :: rest) none
      = some (root,
          ⟨TSymKind.nonaffine, none,
            1 + (findCollapsable opts (root :: rest)).length, false,
            some (SymExpr.intCast (SymExpr.smax
              (SymExpr.div
                (listProd (root.symbolicSize
                  :: (findCollapsable opts (root :: rest)).map (fun j => j.symbolicSize)))
                (SymExpr.mul (SymExpr.tsym TSymKind.nonaffine)
                  (SymExpr.lit opts.chunkNonaffine)))
              (SymExpr.lit 1)))⟩,
          root :: findCollapsable opts (root :: rest))
    ∧ ∀ t, makePartree opts (root :: rest) (some t) = none := by
  constructor
  · simp [makePartree, hna]
  · intro t
    simp [makePartree, hna]

/-- Witness for C3 at a concrete non-affine single-loop nest. -/
theorem claim_C3_witness :
    makePartree optsC3 [naRoot] none
      = some (naRoot,
          ⟨TSymKind.nonaffine, none,
            1 + (findCollapsable optsC3 [naRoot]).length, false,
            some (SymExpr.intCast (SymExpr.smax
              (SymExpr.div
                (listProd (naRoot.symbolicSize
                  :: (findCollapsable optsC3 [naRoot]).map (fun j => j.symbolicSize)))
                (SymExpr.mul (SymExpr.tsym TSymKind.nonaffine)
                  (SymExpr.lit optsC3.chunkNonaffine)))
              (SymExpr.lit 1)))⟩,
          naRoot :: findCollapsable optsC3 [naRoot])
    ∧ ∀ t, makePartree optsC3 [naRoot] (some t) = none :=
  claim_C3 optsC3 naRoot [] (by decide)

/-- C1 counterexample: with 8 physical cores meeting the par-collapse-ncores
threshold 4, and both inner candidates perfectly nested, non-vectorized and
free of bound dependencies on any earlier induction variable, the collapse
degree produced by the partree builder is 1, not 1 + 2: collection is also cut
short by the par-collapse-work threshold (the remaining static work 4 is below
the threshold 100), a stopping condition the claim omits. -/
theorem claim_C1_counterexample :
    (makePartree optsC1 candsC1 none).map (fun r => r.2.1.ncollapse) = some 1
    ∧ (candsC1.drop 1).all (fun i => i.perfectInRoot && !i.isVectorized) = true
    ∧ (∀ i ∈ candsC1.drop 1, ∀ j ∈ candsC1, j.dim ∉ i.minFreeSymbols)
    ∧ (candsC1.drop 1).length = 2
    ∧ optsC1.collapseNcores ≤ optsC1.ncores := by decide

/-- C1 (amended): when the physical core count meets the par-collapse-ncores
threshold and the partree builder succeeds, the collapse degree equals 1 plus
the number of consecutive inner candidate loops that are each perfectly nested
under the root, not vectorized, free of bound dependencies on already-collapsed
induction variables, and not cut off by the par-collapse-work break; the
collapsable loops are an initial run of the inner candidates, and collapsing
never spans a pair of loops where an inner loop's lower bound expression
mentions an earlier collapsed loop's induction variable. -/
theorem claim_C1_amended (opts : ParOptions) (root : Iter) (rest : List Iter)
    (nt : Option TSymKind) (r : Iter) (p : Partree) (c : List Iter)
    (hcore : opts.collapseNcores ≤ opts.ncores)
    (h : makePartree opts (root :: rest) nt = some (r, p, c)) :
    p.ncollapse = 1 + specCollapseCount opts.collapseWork [root] rest
    ∧ findCollapsable opts (root :: rest)
        = rest.take (findCollapsable opts (root :: rest)).length
    ∧ ∀ pre x suf, findCollapsable opts (root :: rest) = pre ++ x :: suf →
        boundDepends ([root] ++ pre) x = false := by
  have hfc : findCollapsable opts (root :: rest)
      = findCollapsableAux opts.collapseWork [root] rest := by
    simp [findCollapsable, hcore]
  obtain ⟨-, hn, -⟩ := makePartree_shape opts root rest nt r p c h
  refine ⟨?_, ?_, ?_⟩
  · rw [hn, hfc, findCollapsableAux_length]
  · rw [hfc]
    exact findCollapsableAux_take _ _ _
  · intro pre x suf hsplit
    rw [hfc] at hsplit
    exact findCollapsableAux_nodep_split _ _ _ _ _ _ hsplit

/-- Witness for the amended C1, at a single-loop affine nest. -/
theorem claim_C1_amended_witness :
    (⟨TSymKind.default, some Schedule.static, 1, false, none⟩ : Partree).ncollapse
      = 1 + specCollapseCount optsC1.collapseWork [rootC1] []
    ∧ findCollapsable optsC1 [rootC1]
        = ([] : List Iter).take (findCollapsable optsC1 [rootC1]).length
    ∧ ∀ pre x suf, findCollapsable optsC1 [rootC1] = pre ++ x :: suf →
        boundDepends ([rootC1] ++ pre) x = false :=
  claim_C1_amended optsC1 rootC1 [] none rootC1
    ⟨TSymKind.default, some Schedule.static, 1, false, none⟩ [rootC1]
    (by decide) (by decide)

/-- C7: during collapse analysis, when the product of the remaining
uncollapsed inner loops' trip counts is statically determinable and falls
below the par-collapse-work threshold, collapsing stops at the current loop
(it is not added to the collapse group); when the product cannot be determined
statically, the work check is skipped and collapsing proceeds. -/
theorem claim_C7 (cw : Int) (prior : List Iter) (i : Iter) (rest : List Iter)
    (hperf : i.perfectInRoot = true) (hdep : boundDepends prior i = false)
    (hvec : i.isVectorized = false) :
    (∀ w, staticProd rest = some w → w < cw → rest ≠ [] →
        findCollapsableAux cw prior (i :: rest) = [])
    ∧ (staticProd rest = none →
        findCollapsableAux cw prior (i :: rest)
          = i :: findCollapsableAux cw (prior ++ [i]) rest) := by
  constructor
  · intro w hw hlt hne
    have hwb : workBreak cw rest = true := by
      cases rest with
      | nil => exact absurd rfl hne
      | cons a l => simp [workBreak, hw, hlt]
    rw [findCollapsableAux_cons]
    simp [hperf, hdep, hvec, hwb]
  · intro hnone
    have hwb : workBreak cw rest = false := by
      cases rest with
      | nil => rfl
      | cons a l => simp [workBreak, hnone]
    rw [findCollapsableAux_cons]
    simp [hperf, hdep, hvec, hwb]

/-- Witness for C7: remaining static work 4 below threshold 100 stops the
collection with the current loop excluded. -/
theorem claim_C7_witness :
    findCollapsableAux 100 [] [iterC7a, iterC7b] = [] :=
  (claim_C7 100 [] iterC7a [iterC7b] (by decide) (by decide) (by decide)).1 4
    (by decide) (by decide) (by decide)

/-- C6: within one invocation of the parallelization pass, at most one
pointer-array promotion is created per original heap-allocated thread-local
buffer: the map is consulted before any insertion (a hit leaves the map and
the name counter untouched and returns the stored pointer array), the pointer
array returned for a buffer is the map's binding, existing bindings survive
every later nest, and the final map binds each buffer at most once. -/
theorem claim_C6 :
    (∀ (m : List (String × Nat)) (c : Nat) (buf : String) (pi : Nat),
        plookup buf m = some pi → processBuffer m c buf = (m, c, pi))
    ∧ (∀ m c buf, plookup buf (processBuffer m c buf).1
        = some (processBuffer m c buf).2.2)
    ∧ (∀ (st : List (String × Nat) × Nat) (nest : List String) (b : String) (pi : Nat),
        plookup b st.1 = some pi →
        plookup b ((makeParregion st nest).1).1 = some pi)
    ∧ (∀ nests, (mapKeys (runParallelParrays nests)).Nodup) := by
  refine ⟨?_, ?_, ?_, ?_⟩
  · intro m c buf pi h
    unfold processBuffer
    rw [h]
  · intro m c buf
    unfold processBuffer
    cases hl : plookup buf m with
    | some x => simpa using hl
    | none => simpa using plookup_append_self buf m c hl
  · intro st nest b pi h
    exact foldl_regionStep_stable nest (st, []) b pi h
  · intro nests
    exact foldl_passStep_nodup nests ([], 0) (by simp [mapKeys])

/-- Witness for C6: a second request for an already-promoted buffer returns
the original pointer array and leaves the state unchanged. -/
theorem claim_C6_witness :
    processBuffer [("buf", 0)] 1 "buf" = ([("buf", 0)], 1, 0) :=
  claim_C6.1 [("buf", 0)] 1 "buf" 0 (by decide)
